import Mathlib

/-!
Shallow embedding of the panel-test execution and aggregation engine of the
RalphVoices repository, together with proofs settling the frozen claims.

Sources embedded:
* `src/backend/src/services/ai.ts` — per-variant score parsing
  (`generateConceptResponse`), variant shape normalisation (`generateVariants`),
  summary statistics and stratified sampling (`analyzeTestResults`);
* the tests route (`src/unnamed/part_002`) — run state guard
  (the run endpoint), batched background processing
  (`processTestResponses`), progress map updates;
* `src/frontend/src/pages/TestResults.tsx` — composite benchmark score
  (`calculateRalphScore`).

Modelling conventions: JavaScript numbers are modelled as `ℚ` (all the
arithmetic involved is exact decimal arithmetic on small values),
`Math.round x` as `⌊x + 1/2⌋`, the JavaScript truthiness fallback `x || d`
on numbers as "`d` when `x` is `0` or absent, otherwise `x`", and a parsed
JSON payload as an explicit inductive shape.  Where a non-numeric JSON
value can reach the numeric pipeline, it is modelled by the two features
JavaScript observes of it — its truthiness and its ToNumber coercion — and
the NaN produced by coercing a non-numeric value is modelled as `none`
(NaN propagates through `Math.max`/`Math.min` and satisfies no order
comparison).  Asynchronous batch execution is modelled by its observable
effects: the sequence of progress-map writes and the multiset of persisted
response rows.
-/

namespace RalphVoices

/-! ### Per-variant score parsing — `generateConceptResponse` in ai.ts -/

/-- The fields of the JSON object inside the `---SCORES---` block,
*restricted to score values that are absent, `null`, or JSON numbers*: a
`none` field is one that is absent or `null`.  This restricted view is what
C10 is about; the full value model covering non-numeric score fields (where
the code leaks NaN) is `ParsedScoresJS` below, used by C3. -/
structure ParsedScores where
  sentiment_score : Option ℚ
  engagement_likelihood : Option ℚ
  share_likelihood : Option ℚ
  comprehension_score : Option ℚ
  reaction_tags : Option (List String)
deriving DecidableEq, Repr

/-- The structured result returned for one variant. -/
structure ConceptTestResponse where
  response_text : String
  sentiment_score : ℚ
  engagement_likelihood : ℚ
  share_likelihood : ℚ
  comprehension_score : ℚ
  reaction_tags : List String
deriving DecidableEq, Repr

/-- JavaScript `x || d` for a possibly-absent number: `d` when the value is
absent or `0`, the value otherwise. -/
def jsOr (o : Option ℚ) (d : ℚ) : ℚ :=
  match o with
  | none => d
  | some x => if x = 0 then d else x

/-- `Math.min(10, Math.max(1, x))`. -/
def clampScore (x : ℚ) : ℚ := min 10 (max 1 x)

/-- `Math.min(10, Math.max(1, parsed.f || 5))` — the per-field coercion used
for each of the four scores in `generateConceptResponse`. -/
def coerceScore (o : Option ℚ) : ℚ := clampScore (jsOr o 5)

/-- The default tag list used when `reaction_tags` is not an array. -/
def defaultTags : List String := ["needs_more_info"]

/-- The neutral default score record substituted when the `---SCORES---`
block is absent or does not parse as JSON. -/
def defaultResponse (text : String) : ConceptTestResponse :=
  ⟨text, 5, 5, 5, 5, defaultTags⟩

/-- The parsing step at the end of `generateConceptResponse`: `block = none`
stands for "no `---SCORES---` separator, or `JSON.parse` threw"; in that case
the defaults are kept, otherwise each score field is coerced. -/
def parseConceptResponse (text : String) (block : Option ParsedScores) :
    ConceptTestResponse :=
  match block with
  | none => defaultResponse text
  | some p =>
    { response_text := text
      sentiment_score := coerceScore p.sentiment_score
      engagement_likelihood := coerceScore p.engagement_likelihood
      share_likelihood := coerceScore p.share_likelihood
      comprehension_score := coerceScore p.comprehension_score
      reaction_tags := p.reaction_tags.getD defaultTags }

/-- **C10.** A score field that is missing, `null`, or `0` is replaced by the
neutral default `5` before clamping (so a reported `0` yields `5`, not a
clamp to `1`), and clamping to `[1,10]` is applied to present non-zero
values. -/
theorem coerceScore_zero_default (o : Option ℚ) :
    (o = none ∨ o = some 0 → coerceScore o = 5) ∧
    (∀ x : ℚ, x ≠ 0 → coerceScore (some x) = clampScore x) ∧
    (∀ text (p : ParsedScores), p.sentiment_score = some 0 →
      (parseConceptResponse text (some p)).sentiment_score = 5) := by
  refine ⟨?_, ?_, ?_⟩
  · rintro (rfl | rfl) <;> simp [coerceScore, jsOr, clampScore] <;> norm_num
  · intro x hx
    simp [coerceScore, jsOr, hx]
  · intro text p hp
    simp [parseConceptResponse, hp, coerceScore, jsOr, clampScore]
    norm_num

/-- Witness for C10: a reported score of `0` comes back as `5` (not `1`),
and a present non-zero score is clamped. -/
theorem coerceScore_zero_default_witness :
    coerceScore (some 0) = 5 ∧ coerceScore (some 3) = clampScore 3 :=
  ⟨(coerceScore_zero_default (some 0)).1 (Or.inr rfl),
    (coerceScore_zero_default (some 3)).2.1 3 (by norm_num)⟩

/-! #### The full JSON value model for the score fields

`JSON.parse` can succeed on a block whose score fields hold arbitrary JSON
values.  The pipeline `Math.min(10, Math.max(1, parsed.f || 5))` observes
exactly two features of a non-numeric value: its truthiness (consumed by
`||`) and its ToNumber coercion (consumed by `Math.max`); `Math.max` and
`Math.min` return NaN on a NaN argument. -/

/-- A JSON value occupying one score field of the parsed block.  `absent`
covers a missing field and `null` (both falsy); `num x` is a JSON number;
`other truthy toNum` is any non-numeric JSON value (string, boolean, array,
object), recorded by its JavaScript truthiness and its ToNumber coercion,
with `none` standing for NaN.  Examples: the string "high" is
`other true none`; the string "7" is `other true (some 7)`; the empty
string is `other false (some 0)`; `true` is `other true (some 1)`. -/
inductive ScoreValue where
  | absent
  | num (x : ℚ)
  | other (truthy : Bool) (toNum : Option ℚ)
deriving DecidableEq, Repr

/-- JavaScript truthiness of a score field value: `undefined`/`null` and
the number `0` are falsy. -/
def ScoreValue.isTruthy : ScoreValue → Bool
  | .absent => false
  | .num x => if x = 0 then false else true
  | .other t _ => t

/-- ToNumber as `Math.max` applies it to its argument; `none` is NaN.
(The `absent` case is unreachable here: `|| 5` already replaced it.) -/
def ScoreValue.toNumber : ScoreValue → Option ℚ
  | .absent => none
  | .num x => some x
  | .other _ c => c

/-- `parsed.f || 5` on a full JSON value: the value itself when truthy, the
number `5` otherwise. -/
def jsOrJS (v : ScoreValue) : ScoreValue :=
  if v.isTruthy then v else .num 5

/-- `Math.min(10, Math.max(1, w))` on a full JSON value: coerce to number,
then clamp; NaN propagates through both `Math.max` and `Math.min`. -/
def clampScoreJS (w : ScoreValue) : Option ℚ :=
  match w.toNumber with
  | none => none
  | some x => some (min 10 (max 1 x))

/-- The per-field coercion of `generateConceptResponse` on a full JSON
value. -/
def coerceScoreJS (v : ScoreValue) : Option ℚ := clampScoreJS (jsOrJS v)

/-- The parsed `---SCORES---` block with full JSON values in the score
fields. -/
structure ParsedScoresJS where
  sentiment_score : ScoreValue
  engagement_likelihood : ScoreValue
  share_likelihood : ScoreValue
  comprehension_score : ScoreValue
  reaction_tags : Option (List String)
deriving DecidableEq, Repr

/-- The per-variant result when score fields can carry arbitrary JSON
values: a score of `none` is NaN. -/
structure ConceptTestResponseJS where
  response_text : String
  sentiment_score : Option ℚ
  engagement_likelihood : Option ℚ
  share_likelihood : Option ℚ
  comprehension_score : Option ℚ
  reaction_tags : List String
deriving DecidableEq, Repr

/-- The parsing step of `generateConceptResponse` over the full value
model: `block = none` stands for "no `---SCORES---` separator, or
`JSON.parse` threw". -/
def parseConceptResponseJS (text : String) (block : Option ParsedScoresJS) :
    ConceptTestResponseJS :=
  match block with
  | none => ⟨text, some 5, some 5, some 5, some 5, defaultTags⟩
  | some p =>
    { response_text := text
      sentiment_score := coerceScoreJS p.sentiment_score
      engagement_likelihood := coerceScoreJS p.engagement_likelihood
      share_likelihood := coerceScoreJS p.share_likelihood
      comprehension_score := coerceScoreJS p.comprehension_score
      reaction_tags := p.reaction_tags.getD defaultTags }

/-- "The score lies in `[1,10]`": false of NaN, which satisfies no order
comparison. -/
def scoreInRange : Option ℚ → Prop
  | some x => 1 ≤ x ∧ x ≤ 10
  | none => False

/-- A score field that is absent, `null`, or a JSON number. -/
def ScoreValue.isNumericOrAbsent : ScoreValue → Bool
  | .other _ _ => false
  | _ => true

/-- A `---SCORES---` block that parses as JSON but carries the truthy
non-numeric sentiment value "high" (ToNumber gives NaN). -/
def blockHigh : ParsedScoresJS :=
  ⟨.other true none, .num 8, .num 7, .num 9, some ["excited"]⟩

/-- **C3 counterexample.** On the JSON-parseable block
`{"sentiment_score": "high", "engagement_likelihood": 8, ...}`, the string
"high" is truthy, so `|| 5` keeps it, and `Math.max(1, "high")` coerces it
to NaN: the returned sentiment score is NaN, not a value in `[1,10]`. -/
theorem parseConceptResponseJS_nan :
    (parseConceptResponseJS "t" (some blockHigh)).sentiment_score = none ∧
    ¬ scoreInRange (parseConceptResponseJS "t" (some blockHigh)).sentiment_score ∧
    parseConceptResponseJS "t" none =
      ⟨"t", some 5, some 5, some 5, some 5, ["needs_more_info"]⟩ :=
  ⟨rfl, fun h => h, rfl⟩

theorem coerceScoreJS_inRange (v : ScoreValue)
    (hv : v.isNumericOrAbsent = true) : scoreInRange (coerceScoreJS v) := by
  have hclamp : ∀ x : ℚ, scoreInRange (some (min 10 (max 1 x))) := by
    intro x
    exact ⟨le_min (by norm_num) (le_max_left 1 x), min_le_left 10 _⟩
  cases v with
  | absent => exact hclamp 5
  | num x =>
    by_cases hx : x = 0
    · subst hx
      exact hclamp 5
    · have ht : (ScoreValue.num x).isTruthy = true := by
        simp [ScoreValue.isTruthy, hx]
      unfold coerceScoreJS jsOrJS
      rw [if_pos ht]
      exact hclamp x
  | other t c => exact absurd hv (by simp [ScoreValue.isNumericOrAbsent])

/-- **C3 corrected (amended).** Each returned score lies in `[1,10]`
whenever its field in the parsed block is absent, `null`, or a JSON number;
an absent or unparsable `---SCORES---` block yields exactly the default
tuple `(5, 5, 5, 5, ["needs_more_info"])`; the parser is a total function
and never throws.  A present non-numeric score value escapes the bound: its
NaN propagates through the clamps. -/
theorem parseConceptResponseJS_bounds_and_default
    (text : String) (p : ParsedScoresJS) :
    (p.sentiment_score.isNumericOrAbsent = true →
      scoreInRange (parseConceptResponseJS text (some p)).sentiment_score) ∧
    (p.engagement_likelihood.isNumericOrAbsent = true →
      scoreInRange (parseConceptResponseJS text (some p)).engagement_likelihood) ∧
    (p.share_likelihood.isNumericOrAbsent = true →
      scoreInRange (parseConceptResponseJS text (some p)).share_likelihood) ∧
    (p.comprehension_score.isNumericOrAbsent = true →
      scoreInRange (parseConceptResponseJS text (some p)).comprehension_score) ∧
    parseConceptResponseJS text none =
      ⟨text, some 5, some 5, some 5, some 5, ["needs_more_info"]⟩ :=
  ⟨fun h => coerceScoreJS_inRange _ h, fun h => coerceScoreJS_inRange _ h,
    fun h => coerceScoreJS_inRange _ h, fun h => coerceScoreJS_inRange _ h, rfl⟩

/-- A block with numeric and absent fields only: a reported `0`, an absent
field, an out-of-range `12`, and an in-range `7`. -/
def blockNums : ParsedScoresJS := ⟨.num 0, .absent, .num 12, .num 7, none⟩

/-- Witness for C3 (amended): on a block whose fields are numeric or
absent, all four scores land in `[1,10]`. -/
theorem parseConceptResponseJS_bounds_witness :
    scoreInRange (parseConceptResponseJS "t" (some blockNums)).sentiment_score ∧
    scoreInRange (parseConceptResponseJS "t" (some blockNums)).engagement_likelihood ∧
    scoreInRange (parseConceptResponseJS "t" (some blockNums)).share_likelihood ∧
    scoreInRange (parseConceptResponseJS "t" (some blockNums)).comprehension_score :=
  ⟨(parseConceptResponseJS_bounds_and_default "t" blockNums).1 rfl,
    (parseConceptResponseJS_bounds_and_default "t" blockNums).2.1 rfl,
    (parseConceptResponseJS_bounds_and_default "t" blockNums).2.2.1 rfl,
    (parseConceptResponseJS_bounds_and_default "t" blockNums).2.2.2.1 rfl⟩

/-! ### Summary statistics — `processTestResponses` in the tests route and
`analyzeTestResults` in ai.ts -/

/-- One persisted `test_responses` row (the structured fields used by
aggregation). -/
structure StoredResponse where
  sentiment_score : ℚ
  engagement_likelihood : ℚ
  share_likelihood : ℚ
  comprehension_score : ℚ
  reaction_tags : List String
deriving DecidableEq, Repr

/-- `r.sentiment_score || 5` — the fallback applied wherever a response's
sentiment is read during aggregation. -/
def sVal (r : StoredResponse) : ℚ :=
  if r.sentiment_score = 0 then 5 else r.sentiment_score

/-- `responses.filter(r => (r.sentiment_score || 5) >= 7)`. -/
def posBucket (rs : List StoredResponse) : List StoredResponse :=
  rs.filter fun r => 7 ≤ sVal r

/-- `responses.filter(r => (r.sentiment_score || 5) >= 4 && (r.sentiment_score || 5) < 7)`. -/
def neuBucket (rs : List StoredResponse) : List StoredResponse :=
  rs.filter fun r => 4 ≤ sVal r ∧ sVal r < 7

/-- `responses.filter(r => (r.sentiment_score || 5) < 4)`. -/
def negBucket (rs : List StoredResponse) : List StoredResponse :=
  rs.filter fun r => sVal r < 4

/-- `Math.round x` in JavaScript: round half toward positive infinity. -/
def jsRound (x : ℚ) : ℤ := ⌊x + 1/2⌋

/-- `Math.round(x * 10) / 10` — average rounded to one decimal place. -/
def round1 (x : ℚ) : ℚ := (jsRound (x * 10) : ℚ) / 10

/-- The `summary` object persisted into `test_results` (and recomputed by the
frontend): sentiment tri-bucket counts plus the three rounded averages. -/
structure SummaryStats where
  total_responses : ℕ
  positive : ℕ
  neutral : ℕ
  negative : ℕ
  avg_engagement : ℚ
  avg_share_likelihood : ℚ
  avg_comprehension : ℚ
deriving DecidableEq, Repr

/-- The summary construction of `processTestResponses` (lines 502–512 of the
tests route; `analyzeTestResults` computes the identical counts). -/
def buildSummary (rs : List StoredResponse) : SummaryStats where
  total_responses := rs.length
  positive := (posBucket rs).length
  neutral := (neuBucket rs).length
  negative := (negBucket rs).length
  avg_engagement :=
    round1 ((rs.map (fun r => r.engagement_likelihood)).sum / rs.length)
  avg_share_likelihood :=
    round1 ((rs.map (fun r => r.share_likelihood)).sum / rs.length)
  avg_comprehension :=
    round1 ((rs.map (fun r => r.comprehension_score)).sum / rs.length)

/-- **C8.** The three sentiment buckets partition the response list, so
`positive + neutral + negative = total_responses` for every summary. -/
theorem buildSummary_sentiment_partition (rs : List StoredResponse) :
    (buildSummary rs).positive + (buildSummary rs).neutral +
      (buildSummary rs).negative = (buildSummary rs).total_responses := by
  simp only [buildSummary, posBucket, neuBucket, negBucket]
  induction rs with
  | nil => rfl
  | cons r rs ih =>
    rw [List.filter_cons, List.filter_cons, List.filter_cons, List.length_cons]
    by_cases h7 : (7 : ℚ) ≤ sVal r
    · have hm : ¬(4 ≤ sVal r ∧ sVal r < 7) := fun h => absurd h.2 (not_lt.mpr h7)
      have hg : ¬sVal r < 4 := not_lt.mpr (le_trans (by norm_num) h7)
      rw [if_pos (by simpa using h7), if_neg (by simpa using hm),
        if_neg (by simpa using hg), List.length_cons]
      omega
    · by_cases h4 : (4 : ℚ) ≤ sVal r
      · have hm : 4 ≤ sVal r ∧ sVal r < 7 := ⟨h4, lt_of_not_le h7⟩
        have hg : ¬sVal r < 4 := not_lt.mpr h4
        rw [if_neg (by simpa using h7), if_pos (by simpa using hm),
          if_neg (by simpa using hg), List.length_cons]
        omega
      · have hg : sVal r < 4 := lt_of_not_le h4
        have hm : ¬(4 ≤ sVal r ∧ sVal r < 7) := fun h => absurd h.1 h4
        rw [if_neg (by simpa using h7), if_neg (by simpa using hm),
          if_pos (by simpa using hg), List.length_cons]
        omega

/-! ### Composite benchmark score — `calculateRalphScore` in TestResults.tsx -/

/-- `calculateRalphScore` as written in the frontend: sentiment blend with
weights 0.30/0.30/0.25/0.15, scaled by 10, modulated by the sentiment
distribution, rounded and clamped to `[0,100]`.  Returns `0` when the bucket
counts sum to zero. -/
def calculateRalphScore (s : SummaryStats) : ℤ :=
  if ((s.positive : ℚ) + s.neutral + s.negative) = 0 then 0
  else
    max 0 (min 100 (jsRound
      ((((s.positive : ℚ) * 10 + (s.neutral : ℚ) * 5 + (s.negative : ℚ) * 1) /
            ((s.positive : ℚ) + s.neutral + s.negative) * 0.30 +
          s.avg_engagement * 0.30 + s.avg_share_likelihood * 0.25 +
          s.avg_comprehension * 0.15) * 10 *
        (1 + (s.positive : ℚ) / ((s.positive : ℚ) + s.neutral + s.negative) * 0.1 -
          (s.negative : ℚ) / ((s.positive : ℚ) + s.neutral + s.negative) * 0.15))))

/-- The composite-score formula exactly as the specification words it:
`round(((positive·10 + neutral·5 + negative·1)/total · 0.30 +
avg_engagement·0.30 + avg_share·0.25 + avg_comprehension·0.15) · 10 ·
(1 + 0.10·positive_ratio − 0.15·negative_ratio))` clamped to `[0,100]`. -/
def ralphScoreSpec (s : SummaryStats) : ℤ :=
  min 100 (max 0 (jsRound
    ((((s.positive : ℚ) * 10 + (s.neutral : ℚ) * 5 + (s.negative : ℚ) * 1) /
          ((s.positive : ℚ) + s.neutral + s.negative) * 0.30 +
        s.avg_engagement * 0.30 + s.avg_share_likelihood * 0.25 +
        s.avg_comprehension * 0.15) * 10 *
      (1 + 0.10 * ((s.positive : ℚ) / ((s.positive : ℚ) + s.neutral + s.negative)) -
        0.15 * ((s.negative : ℚ) / ((s.positive : ℚ) + s.neutral + s.negative))))))

/-- The concrete summary of the specification's worked example:
7 positive / 2 neutral / 1 negative, averages 8 / 7 / 9. -/
def exampleSummary : SummaryStats := ⟨10, 7, 2, 1, 8, 7, 9⟩

/-- **C2.** The benchmark score is the specification's pure function of the
summary whenever at least one response was bucketed, and on the worked
example `{positive:7, neutral:2, negative:1, avg_engagement:8, avg_share:7,
avg_comprehension:9}` it evaluates to the fixed integer `84`. -/
theorem calculateRalphScore_spec :
    (∀ s : SummaryStats, 0 < s.positive + s.neutral + s.negative →
      calculateRalphScore s = ralphScoreSpec s) ∧
    calculateRalphScore exampleSummary = 84 := by
  constructor
  · intro s hs
    have htot : ((s.positive : ℚ) + s.neutral + s.negative) ≠ 0 := by
      have h : (0 : ℚ) < (s.positive : ℚ) + s.neutral + s.negative := by
        exact_mod_cast hs
      exact h.ne'
    unfold calculateRalphScore ralphScoreSpec
    rw [if_neg htot]
    have harg :
        (((s.positive : ℚ) * 10 + (s.neutral : ℚ) * 5 + (s.negative : ℚ) * 1) /
              ((s.positive : ℚ) + s.neutral + s.negative) * 0.30 +
            s.avg_engagement * 0.30 + s.avg_share_likelihood * 0.25 +
            s.avg_comprehension * 0.15) * 10 *
          (1 + (s.positive : ℚ) / ((s.positive : ℚ) + s.neutral + s.negative) * 0.1 -
            (s.negative : ℚ) / ((s.positive : ℚ) + s.neutral + s.negative) * 0.15) =
        (((s.positive : ℚ) * 10 + (s.neutral : ℚ) * 5 + (s.negative : ℚ) * 1) /
              ((s.positive : ℚ) + s.neutral + s.negative) * 0.30 +
            s.avg_engagement * 0.30 + s.avg_share_likelihood * 0.25 +
            s.avg_comprehension * 0.15) * 10 *
          (1 + 0.10 * ((s.positive : ℚ) / ((s.positive : ℚ) + s.neutral + s.negative)) -
            0.15 * ((s.negative : ℚ) / ((s.positive : ℚ) + s.neutral + s.negative))) := by
      ring
    rw [harg]
    generalize jsRound _ = z
    omega
  · have hfl : jsRound (167323 / 2000 : ℚ) = 84 := by
      unfold jsRound
      rw [Int.floor_eq_iff] <;> norm_num
    unfold calculateRalphScore exampleSummary
    rw [if_neg (by norm_num)]
    norm_num [hfl]

/-- Witness for C2: the worked example has a non-empty bucket total and the
code agrees with the specification formula on it. -/
theorem calculateRalphScore_spec_witness :
    0 < exampleSummary.positive + exampleSummary.neutral + exampleSummary.negative ∧
    calculateRalphScore exampleSummary = ralphScoreSpec exampleSummary :=
  ⟨by norm_num [exampleSummary],
    calculateRalphScore_spec.1 exampleSummary (by norm_num [exampleSummary])⟩

/-! ### Variant shape normalisation — `generateVariants` in ai.ts -/

/-- One candidate variant record as it appears in the parsed generator
payload.  Every field is optional: the code performs no validation, so a
field can simply be absent. -/
structure VRecord where
  variant_name : Option String
  age_actual : Option ℚ
  location_variant : Option String
  attitude_score : Option ℚ
  primary_platform : Option String
  engagement_level : Option String
  distinguishing_trait : Option String
  voice_modifier : Option String
deriving DecidableEq, Repr

/-- A top-level field value of the parsed JSON object: either an array of
candidate records or any non-array value. -/
inductive JField where
  | farr (xs : List VRecord)
  | fatom
deriving DecidableEq, Repr

/-- The parsed generator payload: either a bare array, or an object whose
fields are listed in insertion order. -/
inductive JTop where
  | jarr (xs : List VRecord)
  | jobj (fields : List (String × JField))
deriving DecidableEq, Repr

/-- `Array.isArray(parsed[k]) ? parsed[k] : undefined` — property access that
succeeds only when the named field holds an array. -/
def lookupArr (fields : List (String × JField)) (k : String) :
    Option (List VRecord) :=
  match fields.lookup k with
  | some (.farr xs) => some xs
  | _ => none

/-- `Object.keys(parsed).find(key => Array.isArray(parsed[key]))` — the first
array-valued field in insertion order. -/
def firstArr (fields : List (String × JField)) : Option (List VRecord) :=
  fields.findSome? fun f =>
    match f.2 with
    | .farr xs => some xs
    | .fatom => none

/-- The shape-normalisation decision chain of `generateVariants`: a bare
array is accepted directly; otherwise the `variants` key, then the `data`
key, then the first array-valued key in insertion order; an object with no
array-valued key yields the empty list. -/
def normalizeVariants : JTop → List VRecord
  | .jarr xs => xs
  | .jobj fields =>
    match lookupArr fields "variants" with
    | some xs => xs
    | none =>
      match lookupArr fields "data" with
      | some xs => xs
      | none =>
        match firstArr fields with
        | some xs => xs
        | none => []

/-- `generateVariants` after a successful generation call and JSON parse:
the requested `count` does not influence the returned list — the code
returns the extracted array unchanged, with no truncation, coercion or
filtering. -/
def generateVariantsResult (count : ℕ) (j : JTop) : List VRecord :=
  normalizeVariants j

theorem lookupArr_eq_none_of_all_fatom
    (fields : List (String × JField)) (k : String)
    (h : ∀ f ∈ fields, f.2 = JField.fatom) : lookupArr fields k = none := by
  induction fields with
  | nil => rfl
  | cons f fs ih =>
    obtain ⟨k', v⟩ := f
    have hf : v = JField.fatom := h (k', v) (List.mem_cons_self _ _)
    have ih' := ih fun g hg => h g (List.mem_cons_of_mem _ hg)
    subst hf
    unfold lookupArr at ih' ⊢
    cases hkb : (k == k') with
    | false => simpa [List.lookup, hkb] using ih'
    | true => simp [List.lookup, hkb]

theorem firstArr_eq_none_of_all_fatom
    (fields : List (String × JField))
    (h : ∀ f ∈ fields, f.2 = JField.fatom) : firstArr fields = none := by
  induction fields with
  | nil => rfl
  | cons f fs ih =>
    have hf := h f (List.mem_cons_self f fs)
    unfold firstArr
    rw [List.findSome?_cons]
    rw [hf]
    exact ih fun g hg => h g (List.mem_cons_of_mem f hg)

/-- **C6.** The normaliser yields the same canonical list for a bare array,
for `{"variants": [...]}`, for `{"data": [...]}`, and for the array under
any other single top-level key; and an object none of whose top-level values
is an array yields the empty list rather than an error. -/
theorem normalizeVariants_shapes (xs : List VRecord) (k : String)
    (fields : List (String × JField)) :
    normalizeVariants (.jarr xs) = xs ∧
    normalizeVariants (.jobj [("variants", .farr xs)]) = xs ∧
    normalizeVariants (.jobj [("data", .farr xs)]) = xs ∧
    normalizeVariants (.jobj [(k, .farr xs)]) = xs ∧
    ((∀ f ∈ fields, f.2 = JField.fatom) →
      normalizeVariants (.jobj fields) = []) := by
  refine ⟨rfl, rfl, rfl, ?_, ?_⟩
  · by_cases hv : k = "variants"
    · subst hv; rfl
    · by_cases hd : k = "data"
      · subst hd; rfl
      · have hv' : ("variants" == k) = false :=
          beq_eq_false_iff_ne.mpr fun h => hv h.symm
        have hd' : ("data" == k) = false :=
          beq_eq_false_iff_ne.mpr fun h => hd h.symm
        simp only [normalizeVariants, lookupArr, List.lookup]
        rw [hv', hd']
        rfl
  · intro h
    simp only [normalizeVariants,
      lookupArr_eq_none_of_all_fatom fields "variants" h,
      lookupArr_eq_none_of_all_fatom fields "data" h,
      firstArr_eq_none_of_all_fatom fields h]

/-- Witness for C6: a one-record payload under the key `"foo"` yields the
record, and `{"foo": "bar"}` (no array anywhere) yields the empty list. -/
theorem normalizeVariants_shapes_witness :
    normalizeVariants (.jobj [("foo",
      .farr [⟨some "Alex", some 28, none, none, none, none, none, none⟩])]) =
      [⟨some "Alex", some 28, none, none, none, none, none, none⟩] ∧
    normalizeVariants (.jobj [("foo", .fatom)]) = [] :=
  ⟨(normalizeVariants_shapes _ "foo" []).2.2.2.1,
    (normalizeVariants_shapes [] "x" [("foo", .fatom)]).2.2.2.2
      (by intro f hf; rcases List.mem_singleton.mp hf with rfl; rfl)⟩

/-- A fully-populated candidate record. -/
def vFull : VRecord :=
  ⟨some "Alex", some 28, some "Williamsburg", some 7, some "Instagram",
    some "heavy", some "sustainability", some "casual"⟩

/-- A candidate record missing the required name/platform fields, with an
out-of-range attitude score. -/
def vBroken : VRecord := ⟨none, some 30, none, some 99, none, none, none, none⟩

/-- **C7 counterexample.** For a requested count of `1`, a payload holding
two records — one of them missing the required fields and carrying an
out-of-range score — is returned whole: more than `N` records, the broken
element kept, nothing coerced. -/
theorem generateVariantsResult_no_validation :
    generateVariantsResult 1 (.jarr [vFull, vBroken]) = [vFull, vBroken] ∧
    1 < (generateVariantsResult 1 (.jarr [vFull, vBroken])).length ∧
    vBroken.variant_name = none ∧
    vBroken.attitude_score = some 99 := by
  refine ⟨rfl, ?_, rfl, rfl⟩
  simp [generateVariantsResult, normalizeVariants]

/-- **C7 amended.** `generateVariants` performs no per-record validation:
for every requested count the result is exactly the list extracted by shape
normalisation — a bare array is returned unchanged (regardless of how its
length compares with the requested count), so no truncation to `N`, no
range coercion, and no dropping of incomplete elements occurs. -/
theorem generateVariantsResult_passthrough (count : ℕ) (j : JTop) :
    generateVariantsResult count j = normalizeVariants j ∧
    (∀ xs : List VRecord, generateVariantsResult count (.jarr xs) = xs) :=
  ⟨rfl, fun _ => rfl⟩

/-! ### Stratified sampling for theme analysis — `analyzeTestResults` in ai.ts -/

/-- `MAX_RESPONSES_FOR_ANALYSIS`. -/
def MAXRESPONSES : ℕ := 40

/-- `targetPerGroup = Math.floor(MAX_RESPONSES_FOR_ANALYSIS / 3)`. -/
def targetPerGroup : ℕ := MAXRESPONSES / 3

/-- `sampleFromGroup(group, count)`: shuffle, then take `count`.  The shuffle
outcome is passed in explicitly; soundness requires only that it is a
permutation of the bucket. -/
def sampleFromGroup (shuffled : List StoredResponse) (count : ℕ) :
    List StoredResponse :=
  shuffled.take count

/-- The sampling step of `analyzeTestResults`: all responses when the count
is within the threshold, otherwise up to `targetPerGroup + 5` from each
shuffled sentiment bucket, concatenated and capped at the threshold. -/
def sampledResponses (rs spos sneu sneg : List StoredResponse) :
    List StoredResponse :=
  if rs.length ≤ MAXRESPONSES then rs
  else
    (sampleFromGroup spos (min (posBucket rs).length (targetPerGroup + 5)) ++
      sampleFromGroup sneu (min (neuBucket rs).length (targetPerGroup + 5)) ++
      sampleFromGroup sneg (min (negBucket rs).length (targetPerGroup + 5))).take
      MAXRESPONSES

theorem exists_mem_take_of_pos {α : Type} (l : List α) (n : ℕ)
    (hn : 0 < n) (hl : l ≠ []) : ∃ r, r ∈ l.take n ∧ r ∈ l := by
  obtain ⟨x, xs, rfl⟩ := List.exists_cons_of_ne_nil hl
  obtain ⟨m, rfl⟩ := Nat.exists_eq_succ_of_ne_zero hn.ne'
  rw [List.take_succ_cons]
  exact ⟨x, List.mem_cons_self _ _, List.mem_cons_self _ _⟩

theorem take_append_three {α : Type} (A B C : List α) (k : ℕ)
    (hA : A.length ≤ k) (hB : B.length ≤ k - A.length) :
    (A ++ B ++ C).take k = A ++ (B ++ C.take (k - A.length - B.length)) := by
  rw [List.append_assoc, List.take_append_eq_append_take,
    List.take_of_length_le hA, List.take_append_eq_append_take,
    List.take_of_length_le hB]

/-- **C9.** Whenever the response count exceeds the threshold `40`, and for
every outcome of the three bucket shuffles, the stratified sample contains
at most `40` responses and at least one response from each non-empty
sentiment bucket. -/
theorem sampledResponses_stratified (rs spos sneu sneg : List StoredResponse)
    (hpos : spos.Perm (posBucket rs)) (hneu : sneu.Perm (neuBucket rs))
    (hneg : sneg.Perm (negBucket rs)) (hlen : MAXRESPONSES < rs.length) :
    (sampledResponses rs spos sneu sneg).length ≤ 40 ∧
    (posBucket rs ≠ [] →
      ∃ r, r ∈ sampledResponses rs spos sneu sneg ∧ r ∈ posBucket rs) ∧
    (neuBucket rs ≠ [] →
      ∃ r, r ∈ sampledResponses rs spos sneu sneg ∧ r ∈ neuBucket rs) ∧
    (negBucket rs ≠ [] →
      ∃ r, r ∈ sampledResponses rs spos sneu sneg ∧ r ∈ negBucket rs) := by
  have htg : targetPerGroup + 5 = 18 := by decide
  set A := sampleFromGroup spos (min (posBucket rs).length (targetPerGroup + 5))
    with hA
  set B := sampleFromGroup sneu (min (neuBucket rs).length (targetPerGroup + 5))
    with hB
  set C := sampleFromGroup sneg (min (negBucket rs).length (targetPerGroup + 5))
    with hC
  have hif : sampledResponses rs spos sneu sneg =
      (A ++ B ++ C).take MAXRESPONSES := by
    unfold sampledResponses
    rw [if_neg (by omega)]
  have hAlen : A.length ≤ 18 := by
    rw [hA]
    unfold sampleFromGroup
    exact le_trans (List.length_take_le _ _) (htg ▸ Nat.min_le_right _ _)
  have hBlen : B.length ≤ 18 := by
    rw [hB]
    unfold sampleFromGroup
    exact le_trans (List.length_take_le _ _) (htg ▸ Nat.min_le_right _ _)
  have hsplit : (A ++ B ++ C).take MAXRESPONSES =
      A ++ (B ++ C.take (MAXRESPONSES - A.length - B.length)) :=
    take_append_three A B C MAXRESPONSES
      (by unfold MAXRESPONSES; omega) (by unfold MAXRESPONSES; omega)
  refine ⟨?_, ?_, ?_, ?_⟩
  · rw [hif]
    exact le_trans (List.length_take_le _ _) (by decide)
  · intro hne
    have h2 : spos ≠ [] := fun h => hne (List.Perm.eq_nil (h ▸ hpos).symm)
    have h1 : 0 < min (posBucket rs).length (targetPerGroup + 5) := by
      have := List.length_pos.mpr hne
      omega
    obtain ⟨x, hxA, hxpos⟩ := exists_mem_take_of_pos spos _ h1 h2
    refine ⟨x, ?_, hpos.mem_iff.mp hxpos⟩
    rw [hif, hsplit]
    exact List.mem_append_left _ hxA
  · intro hne
    have h2 : sneu ≠ [] := fun h => hne (List.Perm.eq_nil (h ▸ hneu).symm)
    have h1 : 0 < min (neuBucket rs).length (targetPerGroup + 5) := by
      have := List.length_pos.mpr hne
      omega
    obtain ⟨x, hxB, hxneu⟩ := exists_mem_take_of_pos sneu _ h1 h2
    refine ⟨x, ?_, hneu.mem_iff.mp hxneu⟩
    rw [hif, hsplit]
    exact List.mem_append_right _ (List.mem_append_left _ hxB)
  · intro hne
    have h2 : sneg ≠ [] := fun h => hne (List.Perm.eq_nil (h ▸ hneg).symm)
    have h1 : 0 < min (negBucket rs).length (targetPerGroup + 5) := by
      have := List.length_pos.mpr hne
      omega
    obtain ⟨x, hxC0, hxneg0⟩ := exists_mem_take_of_pos sneg _ h1 h2
    have hxC : x ∈ C := by
      rw [hC]
      unfold sampleFromGroup
      exact hxC0
    have hcap : 0 < MAXRESPONSES - A.length - B.length := by
      unfold MAXRESPONSES
      omega
    obtain ⟨y, hyCt, hyC⟩ :=
      exists_mem_take_of_pos C (MAXRESPONSES - A.length - B.length) hcap
        (List.ne_nil_of_mem hxC)
    have hyneg : y ∈ negBucket rs := by
      have : y ∈ sneg := by
        rw [hC] at hyC
        exact List.mem_of_mem_take hyC
      exact hneg.mem_iff.mp this
    refine ⟨y, ?_, hyneg⟩
    rw [hif, hsplit]
    exact List.mem_append_right _ (List.mem_append_right _ hyCt)

/-- A response row with the given sentiment and neutral other scores. -/
def mkResp (s : ℚ) : StoredResponse := ⟨s, 5, 5, 5, []⟩

/-- The specification's worked sampling example: 100 responses split
60 positive / 30 neutral / 10 negative. -/
def ex100 : List StoredResponse :=
  List.replicate 60 (mkResp 8) ++ List.replicate 30 (mkResp 5) ++
    List.replicate 10 (mkResp 2)

/-- Witness for C9: on the 60/30/10 split of 100 responses (identity
shuffles), the sample is capped at 40 and hits all three buckets. -/
theorem sampledResponses_stratified_witness :
    (sampledResponses ex100 (posBucket ex100) (neuBucket ex100)
      (negBucket ex100)).length ≤ 40 ∧
    (∃ r, r ∈ sampledResponses ex100 (posBucket ex100) (neuBucket ex100)
      (negBucket ex100) ∧ r ∈ posBucket ex100) ∧
    (∃ r, r ∈ sampledResponses ex100 (posBucket ex100) (neuBucket ex100)
      (negBucket ex100) ∧ r ∈ neuBucket ex100) ∧
    (∃ r, r ∈ sampledResponses ex100 (posBucket ex100) (neuBucket ex100)
      (negBucket ex100) ∧ r ∈ negBucket ex100) := by
  have h8 : mkResp 8 ∈ posBucket ex100 :=
    List.mem_filter.mpr ⟨by simp [ex100],
      decide_eq_true (by norm_num [sVal, mkResp])⟩
  have h5 : mkResp 5 ∈ neuBucket ex100 :=
    List.mem_filter.mpr ⟨by simp [ex100],
      decide_eq_true (by constructor <;> norm_num [sVal, mkResp])⟩
  have h2 : mkResp 2 ∈ negBucket ex100 :=
    List.mem_filter.mpr ⟨by simp [ex100],
      decide_eq_true (by norm_num [sVal, mkResp])⟩
  have h := sampledResponses_stratified ex100 (posBucket ex100)
    (neuBucket ex100) (negBucket ex100) (List.Perm.refl _) (List.Perm.refl _)
    (List.Perm.refl _) (by norm_num [ex100, MAXRESPONSES])
  exact ⟨h.1, h.2.1 (List.ne_nil_of_mem h8), h.2.2.1 (List.ne_nil_of_mem h5),
    h.2.2.2 (List.ne_nil_of_mem h2)⟩

/-! ### Response collection orchestrator — `processTestResponses` and the
run endpoint in the tests route -/

/-- `BATCH_SIZE = 3` — variants processed per batch. -/
def BATCHSIZE : ℕ := 3

/-- `DELAY_MS = 1000` — inter-batch delay in milliseconds. -/
def DELAYMS : ℕ := 1000

/-- The batching loop `for (i = 0; i < N; i += B) slice(i, i + B)`:
split a list into consecutive chunks of `B` (the head chunk is
`(x :: xs).take B`, written structurally). -/
def chunks {α : Type} (B : ℕ) : List α → List (List α)
  | [] => []
  | x :: xs => (x :: xs.take (B - 1)) :: chunks B (xs.drop (B - 1))
termination_by l => l.length
decreasing_by
  simp only [List.length_drop, List.length_cons]
  omega

theorem chunks_flatten {α : Type} (B : ℕ) (l : List α) :
    (chunks B l).flatten = l := by
  obtain ⟨n, hn⟩ : ∃ n, l.length ≤ n := ⟨l.length, le_refl _⟩
  induction n generalizing l with
  | zero =>
    have h0 : l = [] := List.length_eq_zero.mp (Nat.le_zero.mp hn)
    subst h0
    simp [chunks]
  | succ n ih =>
    cases l with
    | nil => simp [chunks]
    | cons x xs =>
      have hb : (xs.drop (B - 1)).length ≤ n := by
        simp only [List.length_drop]
        simp only [List.length_cons] at hn
        omega
      rw [chunks]
      simp only [List.flatten_cons]
      rw [ih (xs.drop (B - 1)) hb]
      simp [List.cons_append, List.take_append_drop]

theorem chunks_length {α : Type} (B : ℕ) (hB : 0 < B) (l : List α) :
    (chunks B l).length = (l.length + B - 1) / B := by
  obtain ⟨n, hn⟩ : ∃ n, l.length ≤ n := ⟨l.length, le_refl _⟩
  induction n generalizing l with
  | zero =>
    have h0 : l = [] := List.length_eq_zero.mp (Nat.le_zero.mp hn)
    subst h0
    simp only [chunks, List.length_nil]
    symm
    apply Nat.div_eq_of_lt
    omega
  | succ n ih =>
    cases l with
    | nil =>
      simp only [chunks, List.length_nil]
      symm
      apply Nat.div_eq_of_lt
      omega
    | cons x xs =>
      have hb : (xs.drop (B - 1)).length ≤ n := by
        simp only [List.length_drop]
        simp only [List.length_cons] at hn
        omega
      rw [chunks]
      simp only [List.length_cons]
      rw [ih (xs.drop (B - 1)) hb]
      simp only [List.length_drop]
      have h1 : xs.length + 1 + B - 1 = xs.length + B := by omega
      rw [h1, Nat.add_div_right _ hB]
      by_cases hm : B - 1 ≤ xs.length
      · have h2 : xs.length - (B - 1) + B - 1 = xs.length := by omega
        rw [h2]
      · have h2 : xs.length - (B - 1) + B - 1 = B - 1 := by omega
        rw [h2, Nat.div_eq_of_lt (by omega), Nat.div_eq_of_lt (by omega)]

/-- The rows inserted into `test_responses` over a run in which every
generation call succeeds: each batch maps `generateConceptResponse` over its
variants and inserts one row per variant. -/
def persistedResponses {V R : Type} (B : ℕ) (gen : V → R) (l : List V) :
    List R :=
  ((chunks B l).map (List.map gen)).flatten

/-- **C1.** For `N` variants and any positive batch size `B`, the
orchestrator partitions the variants into exactly `⌈N/B⌉` batches (written
`(N + B − 1) / B` over `ℕ`), and on a fully successful run exactly `N`
responses are persisted, one per variant. -/
theorem processTestResponses_batching {V R : Type} (B : ℕ) (hB : 0 < B)
    (gen : V → R) (l : List V) :
    (chunks B l).length = (l.length + B - 1) / B ∧
    (persistedResponses B gen l).length = l.length ∧
    persistedResponses B gen l = l.map gen := by
  refine ⟨chunks_length B hB l, ?_, ?_⟩
  · unfold persistedResponses
    rw [← List.map_flatten, chunks_flatten, List.length_map]
  · unfold persistedResponses
    rw [← List.map_flatten, chunks_flatten]

/-- Witness for C1 at the code's batch size `3` and seven variants:
`⌈7/3⌉ = 3` batches and seven persisted responses. -/
theorem processTestResponses_batching_witness :
    0 < 3 ∧ (chunks 3 [10, 11, 12, 13, 14, 15, 16]).length = 3 ∧
    (persistedResponses 3 (fun v : ℕ => v + 1) [10, 11, 12, 13, 14, 15, 16]).length = 7 := by
  have h := processTestResponses_batching 3 (by norm_num)
    (fun v : ℕ => v + 1) [10, 11, 12, 13, 14, 15, 16]
  exact ⟨by norm_num, h.1, h.2.1⟩

/-- Run status values of the `tests.status` column and the progress map. -/
inductive RunStatus where
  | running
  | complete
  | failed
deriving DecidableEq, Repr

/-- One entry of the `testProgress` map: `{completed, total, status}`. -/
structure Progress where
  completed : ℕ
  total : ℕ
  status : RunStatus
deriving DecidableEq, Repr

/-- `Promise.all` over a batch resolves exactly when every per-variant
generation call resolves (`gen v = none` models a thrown call). -/
def batchOk {V R : Type} (gen : V → Option R) (b : List V) : Bool :=
  b.all fun v => (gen v).isSome

/-- The `testProgress.set` writes issued after the initial one: one
`running` entry after each successful batch; a `⟨0, total, failed⟩` entry
from the catch handler as soon as a batch throws; a final
`⟨acc, acc, complete⟩` entry when all batches succeed. -/
def runTraceAux {V R : Type} (gen : V → Option R) (total : ℕ) :
    List (List V) → ℕ → List Progress
  | [], acc => [⟨acc, acc, .complete⟩]
  | b :: bs, acc =>
    if batchOk gen b then
      ⟨acc + b.length, total, .running⟩ ::
        runTraceAux gen total bs (acc + b.length)
    else [⟨0, total, .failed⟩]

/-- The full sequence of progress-map writes of one invocation of the run
endpoint followed by `processTestResponses`, starting from the
`⟨0, N, running⟩` entry written before the background task starts. -/
def runTrace {V R : Type} (gen : V → Option R) (l : List V) : List Progress :=
  ⟨0, l.length, .running⟩ :: runTraceAux gen l.length (chunks BATCHSIZE l) 0

/-- Between consecutive progress writes, either the later write is the
failure write or the completed counter has not decreased. -/
def progMono (p q : Progress) : Prop :=
  q.status = RunStatus.failed ∨ p.completed ≤ q.completed

theorem runTraceAux_ne_nil {V R : Type} (gen : V → Option R) (total : ℕ)
    (bs : List (List V)) (acc : ℕ) : runTraceAux gen total bs acc ≠ [] := by
  cases bs with
  | nil => exact List.cons_ne_nil _ _
  | cons b bs =>
    rw [runTraceAux]
    by_cases hok : batchOk gen b = true
    · rw [if_pos hok]
      exact List.cons_ne_nil _ _
    · rw [if_neg hok]
      exact List.cons_ne_nil _ _

theorem getLast?_cons_of_ne_nil {α : Type} (x : α) (l : List α)
    (h : l ≠ []) : (x :: l).getLast? = l.getLast? := by
  cases l with
  | nil => exact absurd rfl h
  | cons y ys => rw [List.getLast?_cons_cons]

theorem runTraceAux_getLast_failed {V R : Type} (gen : V → Option R)
    (total : ℕ) (bs : List (List V)) (acc : ℕ)
    (h : ∃ v ∈ bs.flatten, gen v = none) :
    (runTraceAux gen total bs acc).getLast? = some ⟨0, total, .failed⟩ := by
  induction bs generalizing acc with
  | nil => simp at h
  | cons b bs ih =>
    obtain ⟨v, hv, hgen⟩ := h
    rw [runTraceAux]
    by_cases hok : batchOk gen b = true
    · rw [if_pos hok]
      rw [getLast?_cons_of_ne_nil _ _ (runTraceAux_ne_nil _ _ _ _)]
      apply ih
      rw [List.flatten_cons] at hv
      rcases List.mem_append.mp hv with h1 | h1
      · exact absurd hgen (by
          have := List.all_eq_true.mp hok v h1
          simp [Option.isSome_iff_exists] at this
          obtain ⟨r, hr⟩ := this
          rw [hr]
          exact Option.some_ne_none r)
      · exact ⟨v, h1, hgen⟩
    · rw [if_neg hok]
      rfl

theorem runTraceAux_chain {V R : Type} (gen : V → Option R) (total : ℕ)
    (bs : List (List V)) (acc : ℕ) :
    List.Chain' progMono (runTraceAux gen total bs acc) := by
  induction bs generalizing acc with
  | nil => simp [runTraceAux]
  | cons b bs ih =>
    rw [runTraceAux]
    by_cases hok : batchOk gen b = true
    · rw [if_pos hok]
      rw [List.chain'_cons']
      refine ⟨?_, ih (acc + b.length)⟩
      intro q hq
      cases bs with
      | nil =>
        simp [runTraceAux] at hq
        subst hq
        exact Or.inr (Nat.le_refl _)
      | cons b2 bs2 =>
        rw [runTraceAux] at hq
        by_cases hok2 : batchOk gen b2 = true
        · rw [if_pos hok2] at hq
          simp at hq
          subst hq
          exact Or.inr (Nat.le_add_right _ _)
        · rw [if_neg hok2] at hq
          simp at hq
          subst hq
          exact Or.inl rfl
    · rw [if_neg hok]
      simp
/-- **C4 corrected (amended).** When a generation call throws, the run's
status flips to `failed` and the `total` counter is preserved, but the
in-memory completed counter is reset to `0` rather than frozen at its last
value; the completed counter is non-decreasing across all progress writes
except the final failure write. -/
theorem runTrace_failure_behaviour {V R : Type} (gen : V → Option R)
    (l : List V) (h : ∃ v ∈ l, gen v = none) :
    (runTrace gen l).getLast? = some ⟨0, l.length, .failed⟩ ∧
    List.Chain' progMono (runTrace gen l) := by
  constructor
  · unfold runTrace
    rw [getLast?_cons_of_ne_nil _ _ (runTraceAux_ne_nil _ _ _ _)]
    apply runTraceAux_getLast_failed
    obtain ⟨v, hv, hg⟩ := h
    exact ⟨v, by rw [chunks_flatten]; exact hv, hg⟩
  · unfold runTrace
    rw [List.chain'_cons']
    exact ⟨fun q _ => Or.inr (Nat.zero_le _), runTraceAux_chain _ _ _ _⟩

/-- A generation oracle for which the fourth variant's call throws. -/
def genEx : ℕ → Option ℕ := fun v => if v ≤ 2 then some v else none

/-- **C4 counterexample.** With four variants where the first batch of three
succeeds and the fourth call throws, the progress writes are
`⟨0,4,running⟩, ⟨3,4,running⟩, ⟨0,4,failed⟩`: the completed counter is *not*
frozen at its last known value `3` — it is reset to `0` — and the sequence
of completed counters is not monotonically non-decreasing. -/
theorem runTrace_counterexample :
    runTrace genEx [0, 1, 2, 3] =
      [⟨0, 4, .running⟩, ⟨3, 4, .running⟩, ⟨0, 4, .failed⟩] ∧
    (runTrace genEx [0, 1, 2, 3]).getLast? = some ⟨0, 4, .failed⟩ ∧
    ¬ List.Chain' (fun p q => p.completed ≤ q.completed)
      (runTrace genEx [0, 1, 2, 3]) := by
  have htrace : runTrace genEx [0, 1, 2, 3] =
      [⟨0, 4, .running⟩, ⟨3, 4, .running⟩, ⟨0, 4, .failed⟩] := by
    simp [runTrace, runTraceAux, chunks, batchOk, genEx, BATCHSIZE]
  refine ⟨htrace, by rw [htrace]; rfl, ?_⟩
  rw [htrace]
  intro hch
  have h3 : (3 : ℕ) ≤ 0 :=
    (List.chain'_cons.mp (List.chain'_cons.mp hch).2).1
  omega

/-- Witness for C4 (amended): applying the theorem to the concrete failing
oracle. -/
theorem runTrace_failure_behaviour_witness :
    (runTrace genEx [0, 1, 2, 3]).getLast? = some ⟨0, 4, .failed⟩ ∧
    List.Chain' progMono (runTrace genEx [0, 1, 2, 3]) := by
  have h := runTrace_failure_behaviour genEx [0, 1, 2, 3]
    ⟨3, by decide, by decide⟩
  exact h

/-! ### Run endpoint state guard — the run route handler in the tests
route -/

/-- The four values of `tests.status`. -/
inductive TestStatus where
  | draft
  | running
  | complete
  | failed
deriving DecidableEq, Repr

/-- The guard sequence of the run endpoint: reject a running test, reject a
completed test, reject a concept test without concept text, reject when no
variants exist; otherwise the test transitions to `running`. -/
def runInvoke (s : TestStatus) (hasConcept : Bool) (isConceptTest : Bool)
    (variantCount : ℕ) : Except String TestStatus :=
  if s = .running then .error "Test is already running"
  else if s = .complete then .error "Test has already completed"
  else if !hasConcept && isConceptTest then .error "Concept text is required"
  else if variantCount = 0 then
    .error "No variants found. Generate variants for personas first."
  else .ok .running

/-- The status after the endpoint returns: unchanged on a rejected request,
the new status otherwise. -/
def statusAfterRun (s : TestStatus) (hasConcept : Bool)
    (isConceptTest : Bool) (variantCount : ℕ) : TestStatus :=
  match runInvoke s hasConcept isConceptTest variantCount with
  | .error _ => s
  | .ok s2 => s2

/-- **C5 counterexample.** Invoking run on a `failed` test is *not*
rejected: the guard only rejects `running` and `complete`, so the terminal
state `failed` transitions back to `running`. -/
theorem runInvoke_failed_not_rejected :
    runInvoke .failed true true 5 = .ok .running ∧
    statusAfterRun .failed true true 5 = .running :=
  ⟨rfl, rfl⟩

/-- **C5 corrected (amended).** The run endpoint rejects tests in status
`running` or `complete` with an error and leaves their state unchanged, so
no transition out of `complete` is possible; but `draft` and `failed` tests
both proceed to `running` — `failed` is not terminal under the run
operation. -/
theorem runInvoke_guard (c t : Bool) (n : ℕ) :
    runInvoke .running c t n = .error "Test is already running" ∧
    runInvoke .complete c t n = .error "Test has already completed" ∧
    statusAfterRun .running c t n = .running ∧
    statusAfterRun .complete c t n = .complete ∧
    runInvoke .draft true true (n + 1) = .ok .running ∧
    runInvoke .failed true true (n + 1) = .ok .running :=
  ⟨rfl, rfl, rfl, rfl, rfl, rfl⟩

end RalphVoices
